import Mathlib

/-!
Verification of the Copy Circuit (zkevm-circuits `copy_circuit.rs`).

This file gives a shallow embedding of the copy circuit's assignment engine
(`assign_block` / `assign_step` / `assign_padding_row`) and of its two main
gates ("verify row" and "verify step (q_step == 1)"), and proves or refutes
the frozen claims about them.

Machine integers are modelled as `ℕ` with explicit `% 2 ^ w` where the source
wraps (the U256 additions and the `to_address` truncation of the TxLog address
packing).  Fallible operations of the source (`unwrap` on `Option`/conversion,
usize subtraction in debug mode) are modelled as `Except AssignmentError`.
Field elements live in an arbitrary `Field F`; concrete evaluations use
`ZMod 101`.
-/

/-- The `CopyDataType` tag of a copy step side (bus-mapping). -/
inductive CopyDataType : Type
  | Memory
  | Bytecode
  | TxCalldata
  | TxLog
  | RlcAcc
deriving DecidableEq, Fintype, Repr

/-- Modelled from the spec: the tag encoding into the 3 binary-number bit
columns is an injective, stable assignment of small numbers (the spec does not
fix the concrete values, only injectivity). -/
def CopyDataType.encode : CopyDataType → ℕ
  | .Memory => 0
  | .Bytecode => 1
  | .TxCalldata => 2
  | .TxLog => 3
  | .RlcAcc => 4

/-- Modelled from the spec: the default `CopyDataType` used on the two trailing
padding rows (the spec does not fix which variant is the default). -/
def default_copy_data_type : CopyDataType := CopyDataType.Memory

/-- The `NumberOrHash` sum type of bus-mapping: a small id or a 32-byte
big-endian hash (kept as its list of byte values). -/
inductive NumberOrHash : Type
  | Number (n : ℕ)
  | Hash (bytes : List ℕ)
deriving DecidableEq, Repr

/-- The single opaque assignment-error kind: a malformed witness aborts the
region. -/
inductive AssignmentError : Type
  | assignmentError
deriving DecidableEq, Repr

/-- One `CopyStep` as built inside `assign_block`: the byte value and, when the
corresponding side is `Bytecode`, the is_code flag. -/
structure CopyStep : Type where
  value : ℕ
  is_code : Option Bool
deriving DecidableEq, Repr

/-- A `CopyEvent` witness.  Addresses are u64 values (ℕ here).  The
`rw_counter` / `rwc_inc_left` schedules are modelled from the spec: they are
externally provided by the input builder, indexed by step index. -/
structure CopyEvent : Type where
  src_type : CopyDataType
  dst_type : CopyDataType
  src_id : NumberOrHash
  dst_id : NumberOrHash
  src_addr : ℕ
  src_addr_end : ℕ
  dst_addr : ℕ
  log_id : Option ℕ
  bytes : List (ℕ × Bool)
  rw_counter_sched : List ℕ
  rwc_inc_left_sched : List ℕ
deriving DecidableEq, Repr

/-- One assigned row of the copy circuit region.  `q_step` is the read-step
selector (a fixed selector, enabled on read rows); `tag` abstracts the
binary-number chip's decoded tag, every other column is a field element. -/
structure Row (F : Type) : Type where
  q_enable : F
  q_step : Bool
  is_first : F
  is_last : F
  id : F
  tag : CopyDataType
  addr : F
  src_addr_end : F
  bytes_left : F
  value : F
  rlc_acc : F
  is_code : F
  is_pad : F
  rw_counter : F
  rwc_inc_left : F
deriving DecidableEq, Repr

instance {ε α : Type} [DecidableEq ε] [DecidableEq α] : DecidableEq (Except ε α) := fun x y =>
  match x, y with
  | Except.ok a, Except.ok b =>
    if h : a = b then isTrue (by rw [h]) else isFalse (fun hc => h (Except.ok.inj hc))
  | Except.error a, Except.error b =>
    if h : a = b then isTrue (by rw [h]) else isFalse (fun hc => h (Except.error.inj hc))
  | Except.ok _, Except.error _ => isFalse (fun hc => Except.noConfusion hc)
  | Except.error _, Except.ok _ => isFalse (fun hc => Except.noConfusion hc)

variable {F : Type} [Field F]

/-- Modelled from the spec: `rlc::value`, the random linear combination
`Σ xs[i] · r^i` of a byte sequence (the spec's glossary/§6 RLC convention,
with the first element at the lowest power). -/
def rlc_value (xs : List ℕ) (r : F) : F :=
  List.foldr (fun (b : ℕ) (acc : F) => acc * r + (b : F)) 0 xs

/-- `number_or_hash_to_field`: a number maps to itself; a 32-byte big-endian
hash is reversed to little-endian and folded with the circuit randomness. -/
def number_or_hash_to_field (v : NumberOrHash) (r : F) : F :=
  match v with
  | NumberOrHash.Number n => (n : F)
  | NumberOrHash.Hash h => rlc_value h.reverse r

/-- Modelled from the spec: the `TxLogFieldTag::Data` constant of the TxLog
address packing (`FieldTag::Data << 32`); the spec does not fix its numeric
value, any fixed constant works for the claims. -/
def tx_log_field_tag_data : ℕ := 3

/-- The `bytes_left` computation of `assign_step`:
`u64::try_from(copy_event.bytes.len() - step_idx / 2).unwrap()`.
`none` models the usize-subtraction underflow panic and the (vacuous on 64-bit
targets) u64 conversion failure. -/
def bytes_left_checked (n i : ℕ) : Option ℕ :=
  if n < i / 2 then none
  else if 2 ^ 64 ≤ n - i / 2 then none
  else some (n - i / 2)

/-- The `copy_step_addr` computation of `assign_step`:
`(if is_read { src_addr } else { dst_addr }) + (step_idx - if is_read { 0 } else { 1 }) / 2`.
`none` models the usize-subtraction underflow panic on `step_idx - 1`. -/
def step_addr (e : CopyEvent) (i : ℕ) : Option ℕ :=
  if i % 2 = 0 then some (e.src_addr + i / 2)
  else if i = 0 then none
  else some (e.dst_addr + (i - 1) / 2)

/-- The `addr` column value of `assign_step`: on a read row of an event whose
destination is TxLog the source packs
`copy_step_addr | Data << 32 | log_id << 48` inside a U256, truncates to a
20-byte address (`to_address`, low 160 bits) and embeds it into the field
(`to_scalar`); otherwise the plain `copy_step_addr`.  `none` models the
`log_id.unwrap()` panic on a missing log id. -/
def tx_log_addr (e : CopyEvent) (i : ℕ) (copy_step_addr : ℕ) : Option F :=
  if i % 2 = 0 ∧ e.dst_type = CopyDataType.TxLog then
    match e.log_id with
    | none => none
    | some lid =>
        some ((((copy_step_addr + tx_log_field_tag_data * 2 ^ 32 + lid * 2 ^ 48) % 2 ^ 256)
          % 2 ^ 160 : ℕ) : F)
  else some ((copy_step_addr : F))

/-- The row literal written by `assign_step` once all checked computations have
succeeded.  Write rows do not assign `src_addr_end` / `bytes_left` in the
source; the unassigned cells are represented by `0`. -/
def step_row (e : CopyEvent) (r : F) (i : ℕ) (cs : CopyStep) (value rlc_acc : F)
    (bl copy_step_addr : ℕ) (addr : F) : Row F where
  q_enable := 1
  q_step := decide (i % 2 = 0)
  is_first := if i = 0 then 1 else 0
  is_last := if i = 2 * e.bytes.length - 1 then 1 else 0
  id := number_or_hash_to_field (if i % 2 = 0 then e.src_id else e.dst_id) r
  tag := if i % 2 = 0 then e.src_type else e.dst_type
  addr := addr
  src_addr_end := if i % 2 = 0 then (e.src_addr_end : F) else 0
  bytes_left := if i % 2 = 0 then (bl : F) else 0
  value := value
  rlc_acc := rlc_acc
  is_code := cs.is_code.elim 0 (fun b => if b then 1 else 0)
  is_pad := if i % 2 = 0 ∧ e.src_addr_end ≤ copy_step_addr then 1 else 0
  rw_counter := (e.rw_counter_sched.getD i 0 : F)
  rwc_inc_left := (e.rwc_inc_left_sched.getD i 0 : F)

/-- `assign_step`: assigns one row for step `i` of `e`, failing (like the
source's `unwrap` panics) on bytes_left underflow/conversion and on a missing
`log_id` for a TxLog destination read row.  The failure order mirrors the
source: `bytes_left` (line 497) before the address computation (lines
527-543). -/
def assign_step (e : CopyEvent) (r : F) (i : ℕ) (cs : CopyStep) (value rlc_acc : F) :
    Except AssignmentError (Row F) :=
  match bytes_left_checked e.bytes.length i with
  | none => Except.error AssignmentError.assignmentError
  | some bl =>
    match step_addr e i with
    | none => Except.error AssignmentError.assignmentError
    | some copy_step_addr =>
      match (tx_log_addr e i copy_step_addr : Option F) with
      | none => Except.error AssignmentError.assignmentError
      | some addr => Except.ok (step_row e r i cs value rlc_acc bl copy_step_addr addr)

/-- The per-byte loop body of `assign_block`: each byte emits a read step
(step index `2 * j`) and a write step (step index `2 * j + 1`), threading the
running `value_acc` used in RlcAcc mode. -/
def assign_steps (e : CopyEvent) (r rlc : F) :
    List (ℕ × Bool) → ℕ → F → Except AssignmentError (List (Row F))
  | [], _, _ => Except.ok []
  | (bv, bc) :: rest, j, acc =>
    (assign_step e r (2 * j)
        ⟨bv, if e.src_type = CopyDataType.Bytecode then some bc else none⟩ ((bv : F)) rlc).bind
      fun row1 =>
    (assign_step e r (2 * j + 1)
        ⟨bv, if e.dst_type = CopyDataType.Bytecode then some bc else none⟩
        (if e.dst_type = CopyDataType.RlcAcc then acc * r + (bv : F) else (bv : F)) rlc).bind
      fun row2 =>
    (assign_steps e r rlc rest (j + 1)
        (if e.dst_type = CopyDataType.RlcAcc then acc * r + (bv : F) else acc)).bind
      fun rows =>
    Except.ok (row1 :: row2 :: rows)

/-- The event-level `rlc_acc` of `assign_block` (lines 394-403): zero unless
the destination is RlcAcc, in which case `rlc::value` of the reversed byte
values. -/
def event_rlc_acc (e : CopyEvent) (r : F) : F :=
  if e.dst_type = CopyDataType.RlcAcc then rlc_value ((e.bytes.map Prod.fst).reverse) r else 0

/-- All rows emitted for one copy event. -/
def assign_event_rows (e : CopyEvent) (r : F) : Except AssignmentError (List (Row F)) :=
  assign_steps e r (event_rlc_acc e r) e.bytes 0 0

/-- The rows emitted for a list of copy events, in event order. -/
def assign_events (r : F) : List CopyEvent → Except AssignmentError (List (Row F))
  | [] => Except.ok []
  | e :: es =>
    (assign_event_rows e r).bind fun rows =>
    (assign_events r es).bind fun rest =>
    Except.ok (rows ++ rest)

/-- `assign_padding_row`: every column is assigned zero (including the fixed
`q_enable`), the step selector is off and the tag chip is assigned the default
tag. -/
def assign_padding_row : Row F where
  q_enable := 0
  q_step := false
  is_first := 0
  is_last := 0
  id := 0
  tag := default_copy_data_type
  addr := 0
  src_addr_end := 0
  bytes_left := 0
  value := 0
  rlc_acc := 0
  is_code := 0
  is_pad := 0
  rw_counter := 0
  rwc_inc_left := 0

/-- `assign_block`: walk the copy events in order, then append exactly two
padding rows. -/
def assign_block (events : List CopyEvent) (r : F) :
    Except AssignmentError (List (Row F)) :=
  (assign_events r events).bind fun body =>
  Except.ok (body ++ [assign_padding_row, assign_padding_row])

/-- Every column of a row is zero, the step selector is off and the tag is the
default tag: the shape of a trailing padding row. -/
def all_zero_row (row : Row F) : Prop :=
  row.q_enable = 0 ∧ row.q_step = false ∧ row.is_first = 0 ∧ row.is_last = 0 ∧
  row.id = 0 ∧ row.tag = default_copy_data_type ∧ row.addr = 0 ∧
  row.src_addr_end = 0 ∧ row.bytes_left = 0 ∧ row.value = 0 ∧ row.rlc_acc = 0 ∧
  row.is_code = 0 ∧ row.is_pad = 0 ∧ row.rw_counter = 0 ∧ row.rwc_inc_left = 0

/-- The binary-number chip's `value_equals(T, rot)` expression: 1 when the
row's decoded tag equals `T`, else 0 (the chip enforces booleanity and
uniqueness of the bit encoding, so the indicator is exact). -/
def tag_ind (t target : CopyDataType) : F :=
  if t = target then 1 else 0

/-- The binary-number chip's recomposed `tag.value(rot)` expression:
the field image of the injective 3-bit tag encoding. -/
def tag_val (t : CopyDataType) : F :=
  (t.encode : F)

/-- The `q_step` selector as a field expression. -/
def q_step_f (row : Row F) : F :=
  if row.q_step then 1 else 0

/-- The `rw_diff` expression of the "verify row" gate (lines 160-166):
`and(or(tag = Memory, tag = TxLog), not(is_pad))`, with the gadget library's
`or(a,b) = a + b - a*b`, `and(a,b) = a*b`, `not(a) = 1 - a`. -/
def rw_diff_e (row : Row F) : F :=
  (tag_ind row.tag CopyDataType.Memory + tag_ind row.tag CopyDataType.TxLog
    - tag_ind row.tag CopyDataType.Memory * tag_ind row.tag CopyDataType.TxLog)
    * (1 - row.is_pad)

/-- The `not_last_two_rows` guard of the rotation-2 constraints:
`1 - is_last[cur] - is_last[next]` (lines 134-136). -/
def rot2_guard (cur next : Row F) : F :=
  1 - cur.is_last - next.is_last

/-- Booleanity / selector-interaction constraints of the "verify row" gate
(lines 111-132), each multiplied by `q_enable` as in `cb.gate`. -/
def row_gate_bool (cur : Row F) : Prop :=
  cur.q_enable * (cur.is_first * (1 - cur.is_first)) = 0 ∧
  cur.q_enable * (cur.is_last * (1 - cur.is_last)) = 0 ∧
  cur.q_enable * ((1 - q_step_f cur) * cur.is_first) = 0 ∧
  cur.q_enable * (cur.is_last * q_step_f cur) = 0

/-- Rotation-2 preservation constraints of the "verify row" gate (lines
137-158), guarded by `not_last_two_rows`. -/
def row_gate_rot2 (cur next nn : Row F) : Prop :=
  cur.q_enable * (rot2_guard cur next * (cur.id - nn.id)) = 0 ∧
  cur.q_enable * (rot2_guard cur next * (tag_val cur.tag - tag_val nn.tag)) = 0 ∧
  cur.q_enable * (rot2_guard cur next * (cur.addr + 1 - nn.addr)) = 0 ∧
  cur.q_enable * (rot2_guard cur next * (cur.src_addr_end - nn.src_addr_end)) = 0

/-- The rw-counter transition constraints of the "verify row" gate (lines
167-186), active on non-last rows. -/
def row_gate_rwc (cur next : Row F) : Prop :=
  cur.q_enable * ((1 - cur.is_last) * (cur.rw_counter + rw_diff_e cur - next.rw_counter)) = 0 ∧
  cur.q_enable * ((1 - cur.is_last) * (cur.rwc_inc_left - rw_diff_e cur - next.rwc_inc_left)) = 0 ∧
  cur.q_enable * ((1 - cur.is_last) * (cur.rlc_acc - next.rlc_acc)) = 0

/-- The last-row constraint of the "verify row" gate (lines 187-193):
`rwc_inc_left = rw_diff` on `is_last` rows. -/
def row_gate_last (cur : Row F) : Prop :=
  cur.q_enable * (cur.is_last * (cur.rwc_inc_left - rw_diff_e cur)) = 0

/-- The RlcAcc last-row constraint of the "verify row" gate (lines 194-206):
`value = rlc_acc` on last rows tagged RlcAcc. -/
def row_gate_rlc_last (cur : Row F) : Prop :=
  cur.q_enable * (cur.is_last * tag_ind cur.tag CopyDataType.RlcAcc
    * (cur.value - cur.rlc_acc)) = 0

/-- The full "verify row" gate on the window `(cur, next, cur+2)`. -/
def row_gate (cur next nn : Row F) : Prop :=
  row_gate_bool cur ∧ row_gate_rot2 cur next nn ∧ row_gate_rwc cur next ∧
  row_gate_last cur ∧ row_gate_rlc_last cur

/-- The "verify step (q_step == 1)" gate on the window `(cur, next, cur+2)`
(lines 211-268), each constraint multiplied by the `q_step` selector.  `ltv`
is the `addr_lt_addr_end.is_lt` output of the less-than chip, which reports
`addr < src_addr_end` on read rows. -/
def step_gate (ltv : F) (cur next nn : Row F) : Prop :=
  q_step_f cur * (next.is_last * (1 - cur.bytes_left)) = 0 ∧
  q_step_f cur * ((1 - next.is_last) * (cur.bytes_left - (nn.bytes_left + 1))) = 0 ∧
  q_step_f cur * ((1 - tag_ind next.tag CopyDataType.RlcAcc) * (cur.value - next.value)) = 0 ∧
  q_step_f cur * (cur.is_first * (cur.value - next.value)) = 0 ∧
  q_step_f cur * (cur.is_pad * cur.value) = 0 ∧
  q_step_f cur * ((1 - ltv) - cur.is_pad) = 0 ∧
  q_step_f cur * next.is_pad = 0

instance [DecidableEq F] (cur : Row F) : Decidable (row_gate_bool cur) := by
  unfold row_gate_bool; infer_instance

instance [DecidableEq F] (cur next nn : Row F) : Decidable (row_gate_rot2 cur next nn) := by
  unfold row_gate_rot2; infer_instance

instance [DecidableEq F] (cur next : Row F) : Decidable (row_gate_rwc cur next) := by
  unfold row_gate_rwc; infer_instance

instance [DecidableEq F] (cur : Row F) : Decidable (row_gate_last cur) := by
  unfold row_gate_last; infer_instance

instance [DecidableEq F] (cur : Row F) : Decidable (row_gate_rlc_last cur) := by
  unfold row_gate_rlc_last; infer_instance

instance [DecidableEq F] (cur next nn : Row F) : Decidable (row_gate cur next nn) := by
  unfold row_gate; infer_instance

instance [DecidableEq F] (ltv : F) (cur next nn : Row F) :
    Decidable (step_gate ltv cur next nn) := by
  unfold step_gate; infer_instance

instance [DecidableEq F] (row : Row F) : Decidable (all_zero_row row) := by
  unfold all_zero_row; infer_instance

lemma odd_ne_zero {i : ℕ} (h : i % 2 = 1) : i ≠ 0 := by
  intro h0
  rw [h0] at h
  simp at h

/-- Inversion of a successful `assign_step`: all three checked computations
succeeded and the row is the corresponding `step_row` literal. -/
lemma assign_step_ok {e : CopyEvent} {r : F} {i : ℕ} {cs : CopyStep} {v rl : F} {row : Row F}
    (h : assign_step e r i cs v rl = Except.ok row) :
    ∃ bl csa addr, bytes_left_checked e.bytes.length i = some bl ∧
      step_addr e i = some csa ∧ (tx_log_addr e i csa : Option F) = some addr ∧
      row = step_row e r i cs v rl bl csa addr := by
  cases hbl : bytes_left_checked e.bytes.length i with
  | none => simp [assign_step, hbl] at h
  | some bl =>
    cases hsa : step_addr e i with
    | none => simp [assign_step, hbl, hsa] at h
    | some csa =>
      cases hta : (tx_log_addr e i csa : Option F) with
      | none => simp [assign_step, hbl, hsa, hta] at h
      | some addr =>
        simp only [assign_step, hbl, hsa, hta, Except.ok.injEq] at h
        exact ⟨bl, csa, addr, rfl, rfl, hta, h.symm⟩

/-- C3: the step gate (active exactly when q_step = 1, i.e. on read rows)
enforces value[cur] = value[next] whenever the tag at the next (write) row is
not RlcAcc, and additionally enforces value[cur] = value[next] unconditionally
whenever is_first = 1 on the read row. -/
theorem c3_step_gate_value_equality (ltv : F) (cur next nn : Row F)
    (hg : step_gate ltv cur next nn) (hs : cur.q_step = true) :
    (next.tag ≠ CopyDataType.RlcAcc → cur.value = next.value) ∧
    (cur.is_first = 1 → cur.value = next.value) := by
  obtain ⟨-, -, h3, h4, -, -, -⟩ := hg
  have hq : q_step_f cur = 1 := by simp [q_step_f, hs]
  constructor
  · intro hne
    have hind : tag_ind next.tag CopyDataType.RlcAcc = (0 : F) := by
      simp [tag_ind, hne]
    rw [hq, hind, one_mul, sub_zero, one_mul] at h3
    exact sub_eq_zero.mp h3
  · intro hf
    rw [hq, hf, one_mul, one_mul] at h4
    exact sub_eq_zero.mp h4

instance : Fact (Nat.Prime 101) := ⟨by norm_num⟩

def c3_cur : Row (ZMod 101) where
  q_enable := 1
  q_step := true
  is_first := 1
  is_last := 0
  id := 0
  tag := CopyDataType.Memory
  addr := 0
  src_addr_end := 1
  bytes_left := 1
  value := 5
  rlc_acc := 0
  is_code := 0
  is_pad := 0
  rw_counter := 0
  rwc_inc_left := 0

def c3_next : Row (ZMod 101) where
  q_enable := 1
  q_step := false
  is_first := 0
  is_last := 1
  id := 0
  tag := CopyDataType.Memory
  addr := 0
  src_addr_end := 0
  bytes_left := 0
  value := 5
  rlc_acc := 0
  is_code := 0
  is_pad := 0
  rw_counter := 0
  rwc_inc_left := 0

def c3_nn : Row (ZMod 101) := assign_padding_row

theorem c3_witness : c3_cur.value = c3_next.value :=
  (c3_step_gate_value_equality 1 c3_cur c3_next c3_nn (by decide) (by decide)).1 (by decide)

/-- C4: is_pad is assigned 1 exactly on read rows whose source address
`src_addr + step/2` has reached `src_addr_end`, 0 on write rows; and the step
gate constrains `is_pad[cur] = 1 - lt(addr, src_addr_end)` on read rows and
`is_pad[next] = 0` on the paired write row. -/
theorem c4_is_pad_semantics :
    (∀ (e : CopyEvent) (r : F) (i : ℕ) (cs : CopyStep) (v rl : F) (row : Row F),
      assign_step e r i cs v rl = Except.ok row →
      (row.is_pad = 1 ↔ i % 2 = 0 ∧ e.src_addr_end ≤ e.src_addr + i / 2) ∧
      (i % 2 = 1 → row.is_pad = 0)) ∧
    (∀ (ltv : F) (cur next nn : Row F), step_gate ltv cur next nn → cur.q_step = true →
      cur.is_pad = 1 - ltv ∧ next.is_pad = 0) := by
  constructor
  · intro e r i cs v rl row h
    obtain ⟨bl, csa, addr, hbl, hsa, hta, rfl⟩ := assign_step_ok h
    by_cases hi : i % 2 = 0
    · have hcsa : csa = e.src_addr + i / 2 := by
        simp [step_addr, hi] at hsa
        exact hsa.symm
      subst hcsa
      constructor
      · by_cases hc : e.src_addr_end ≤ e.src_addr + i / 2
        · simp [step_row, hi, hc]
        · simp [step_row, hi, hc]
      · intro h1
        omega
    · have hi1 : i % 2 = 1 := (Nat.mod_two_eq_zero_or_one i).resolve_left hi
      constructor
      · simp [step_row, hi, zero_ne_one]
      · intro _
        simp [step_row, hi]
  · intro ltv cur next nn hg hs
    obtain ⟨-, -, -, -, -, h6, h7⟩ := hg
    have hq : q_step_f cur = 1 := by simp [q_step_f, hs]
    rw [hq, one_mul] at h6 h7
    refine ⟨?_, h7⟩
    have := sub_eq_zero.mp h6
    rw [← this]

def c4_event : CopyEvent where
  src_type := CopyDataType.Memory
  dst_type := CopyDataType.Memory
  src_id := NumberOrHash.Number 1
  dst_id := NumberOrHash.Number 1
  src_addr := 0
  src_addr_end := 0
  dst_addr := 0
  log_id := none
  bytes := [(0, false)]
  rw_counter_sched := [10, 11]
  rwc_inc_left_sched := [2, 1]

def c4_row : Row (ZMod 101) := step_row c4_event 3 0 ⟨0, none⟩ 0 0 1 0 0

theorem c4_witness : c4_row.is_pad = (1 : ZMod 101) ∧ c3_next.is_pad = (0 : ZMod 101) :=
  ⟨(c4_is_pad_semantics.1 c4_event 3 0 ⟨0, none⟩ 0 0 c4_row (by decide)).1.mpr (by decide),
    (c4_is_pad_semantics.2 1 c3_cur c3_next c3_nn (by decide) (by decide)).2⟩

def zrow : Row (ZMod 101) := assign_padding_row

def c5_cur : Row (ZMod 101) :=
  { zrow with q_enable := 1, is_last := 1, id := 5, tag := CopyDataType.TxCalldata }

def c5_next : Row (ZMod 101) := { zrow with is_last := 1 }

def c5_nn : Row (ZMod 101) :=
  { zrow with id := 7, tag := CopyDataType.TxCalldata, addr := 1 }

/-- C5 counterexample: on an explicit window whose two `is_last` cells are both
1 — a configuration the claim places inside the "not enforced" region
(`is_last[cur] = 1 ∨ is_last[next] = 1`) — the guard `1 - is_last[cur] -
is_last[next]` equals -1, and a window that satisfies every other constraint of
the "verify row" gate but has different ids at rotation 0 and 2 is rejected:
the rotation-2 equalities are still enforced there. -/
theorem c5_rot2_enforced_when_both_last :
    c5_cur.is_last = (1 : ZMod 101) ∧ c5_next.is_last = (1 : ZMod 101) ∧
    c5_cur.q_enable = (1 : ZMod 101) ∧ c5_cur.id ≠ c5_nn.id ∧
    row_gate_bool c5_cur ∧ row_gate_rwc c5_cur c5_next ∧ row_gate_last c5_cur ∧
    row_gate_rlc_last c5_cur ∧ ¬ row_gate_rot2 c5_cur c5_next c5_nn := by decide

/-- C5 (amended): the rotation-2 equalities (id, tag, addr+1, src_addr_end
between rows 0 and 2) are enforced by the row gate when `is_last[cur] =
is_last[next] = 0`; they are not enforced when exactly one of the two flags is
1 (witnessed in both directions by satisfying windows with different ids); but
when both flags are 1 the guard equals -1 and the equalities are enforced
again, so the boundary region of the claim is exactly one flag set, not
`is_last[cur] = 1 ∨ is_last[next] = 1`. -/
theorem c5_rot2_guard_amended
    (hinj : ∀ a b : CopyDataType, (CopyDataType.encode a : F) = CopyDataType.encode b → a = b) :
    (∀ cur next nn : Row F, row_gate cur next nn → cur.q_enable = 1 →
      cur.is_last = 0 → next.is_last = 0 →
      cur.id = nn.id ∧ cur.tag = nn.tag ∧ nn.addr = cur.addr + 1 ∧
        cur.src_addr_end = nn.src_addr_end) ∧
    (∃ cur next nn : Row (ZMod 101),
      row_gate cur next nn ∧ cur.q_enable = 1 ∧ cur.is_last = 1 ∧ next.is_last = 0 ∧
        cur.id ≠ nn.id) ∧
    (∃ cur next nn : Row (ZMod 101),
      row_gate cur next nn ∧ cur.q_enable = 1 ∧ cur.is_last = 0 ∧ next.is_last = 1 ∧
        cur.id ≠ nn.id) ∧
    (∀ cur next nn : Row F, row_gate cur next nn → cur.q_enable = 1 →
      cur.is_last = 1 → next.is_last = 1 →
      cur.id = nn.id ∧ cur.tag = nn.tag ∧ nn.addr = cur.addr + 1 ∧
        cur.src_addr_end = nn.src_addr_end) := by
  refine ⟨?_, ?_, ?_, ?_⟩
  · intro cur next nn hg hq h0 h1
    obtain ⟨-, ⟨h21, h22, h23, h24⟩, -, -, -⟩ := hg
    rw [hq, one_mul] at h21 h22 h23 h24
    have hgd : rot2_guard cur next = 1 := by
      simp [rot2_guard, h0, h1]
    rw [hgd, one_mul] at h21 h22 h23 h24
    refine ⟨sub_eq_zero.mp h21, ?_, (sub_eq_zero.mp h23).symm, sub_eq_zero.mp h24⟩
    exact hinj _ _ (by simpa [tag_val] using sub_eq_zero.mp h22)
  · exact ⟨c5_cur, zrow, c5_nn, by decide⟩
  · exact ⟨{ zrow with q_enable := 1, id := 5, tag := CopyDataType.TxCalldata },
      { zrow with is_last := 1 }, c5_nn, by decide⟩
  · intro cur next nn hg hq h0 h1
    obtain ⟨-, ⟨h21, h22, h23, h24⟩, -, -, -⟩ := hg
    rw [hq, one_mul] at h21 h22 h23 h24
    have hgd : rot2_guard cur next = -1 := by
      simp [rot2_guard, h0, h1]
    rw [hgd, neg_one_mul, neg_eq_zero] at h21 h22 h23 h24
    refine ⟨sub_eq_zero.mp h21, ?_, (sub_eq_zero.mp h23).symm, sub_eq_zero.mp h24⟩
    exact hinj _ _ (by simpa [tag_val] using sub_eq_zero.mp h22)

def c5w_cur : Row (ZMod 101) :=
  { zrow with q_enable := 1, id := 9, tag := CopyDataType.TxCalldata }

def c5w_nn : Row (ZMod 101) :=
  { zrow with id := 9, tag := CopyDataType.TxCalldata, addr := 1 }

theorem c5_witness : c5w_cur.id = c5w_nn.id :=
  ((c5_rot2_guard_amended
      (show ∀ a b : CopyDataType,
          (CopyDataType.encode a : ZMod 101) = CopyDataType.encode b → a = b by decide)).1
    c5w_cur zrow c5w_nn (by decide) (by decide) (by decide) (by decide)).1

/-- C6: for every enabled row with is_last = 0 the row gate enforces
`rw_counter[next] = rw_counter[cur] + rw_diff` and `rwc_inc_left[next] =
rwc_inc_left[cur] - rw_diff`; `rw_diff` equals 1 exactly when the current
row's tag is Memory or TxLog and is_pad = 0, and 0 otherwise (for boolean
is_pad); and on every enabled row with is_last = 1 it enforces
`rwc_inc_left = rw_diff`. -/
theorem c6_rw_counter_transition (cur next nn : Row F)
    (hg : row_gate cur next nn) (hq : cur.q_enable = 1)
    (hb : cur.is_pad = 0 ∨ cur.is_pad = 1) :
    (cur.is_last = 0 →
      next.rw_counter = cur.rw_counter + rw_diff_e cur ∧
      next.rwc_inc_left = cur.rwc_inc_left - rw_diff_e cur) ∧
    ((cur.tag = CopyDataType.Memory ∨ cur.tag = CopyDataType.TxLog) ∧ cur.is_pad = 0 →
      rw_diff_e cur = 1) ∧
    (¬((cur.tag = CopyDataType.Memory ∨ cur.tag = CopyDataType.TxLog) ∧ cur.is_pad = 0) →
      rw_diff_e cur = 0) ∧
    (cur.is_last = 1 → cur.rwc_inc_left = rw_diff_e cur) := by
  obtain ⟨-, -, ⟨hw1, hw2, -⟩, hl, -⟩ := hg
  unfold row_gate_last at hl
  rw [hq, one_mul] at hw1 hw2 hl
  refine ⟨?_, ?_, ?_, ?_⟩
  · intro h0
    rw [h0, sub_zero, one_mul] at hw1 hw2
    exact ⟨(sub_eq_zero.mp hw1).symm, (sub_eq_zero.mp hw2).symm⟩
  · rintro ⟨htag, hp0⟩
    rcases htag with h | h <;> simp [rw_diff_e, tag_ind, h, hp0]
  · intro hn
    rcases hb with hp | hp
    · have htag : ¬(cur.tag = CopyDataType.Memory ∨ cur.tag = CopyDataType.TxLog) :=
        fun ht => hn ⟨ht, hp⟩
      push_neg at htag
      simp [rw_diff_e, tag_ind, htag.1, htag.2, hp]
    · simp [rw_diff_e, hp]
  · intro h1
    rw [h1, one_mul] at hl
    exact sub_eq_zero.mp hl

def c6_cur : Row (ZMod 101) :=
  { zrow with q_enable := 1, tag := CopyDataType.Memory, rw_counter := 4, rwc_inc_left := 2 }

def c6_next : Row (ZMod 101) :=
  { zrow with is_last := 1, rw_counter := 5, rwc_inc_left := 1 }

theorem c6_witness :
    rw_diff_e c6_cur = (1 : ZMod 101) ∧ c6_next.rw_counter = c6_cur.rw_counter + rw_diff_e c6_cur :=
  ⟨(c6_rw_counter_transition c6_cur c6_next zrow (by decide) (by decide) (by decide)).2.1
      ⟨Or.inl (by decide), by decide⟩,
    ((c6_rw_counter_transition c6_cur c6_next zrow (by decide) (by decide) (by decide)).1
      (by decide)).1⟩

lemma except_error_bind {ε α β : Type} (err : ε) (f : α → Except ε β) :
    (Except.error err).bind f = Except.error err := rfl

lemma except_bind_ok_iff {ε α β : Type} {x : Except ε α} {f : α → Except ε β} {b : β} :
    x.bind f = Except.ok b ↔ ∃ a, x = Except.ok a ∧ f a = Except.ok b := by
  cases x with
  | error e => simp [Except.bind]
  | ok a => simp [Except.bind]

/-- Every event emits exactly two rows per byte. -/
lemma assign_steps_length {e : CopyEvent} {r rlc : F} :
    ∀ (l : List (ℕ × Bool)) (j : ℕ) (acc : F) (rows : List (Row F)),
      assign_steps e r rlc l j acc = Except.ok rows → rows.length = 2 * l.length := by
  intro l
  induction l with
  | nil =>
    intro j acc rows h
    rw [assign_steps] at h
    simp only [Except.ok.injEq] at h
    subst h
    rfl
  | cons b rest ih =>
    obtain ⟨bv, bc⟩ := b
    intro j acc rows h
    rw [assign_steps] at h
    obtain ⟨row1, h1, h⟩ := except_bind_ok_iff.mp h
    obtain ⟨row2, h2, h⟩ := except_bind_ok_iff.mp h
    obtain ⟨rows0, h3, h⟩ := except_bind_ok_iff.mp h
    simp only [Except.ok.injEq] at h
    subst h
    have := ih (j + 1) _ rows0 h3
    simp [List.length_cons, this]
    omega

/-- Every emitted row of an event carries the event-level `rlc_acc` that was
passed to `assign_steps`. -/
lemma assign_steps_rlc_acc {e : CopyEvent} {r rlc : F} :
    ∀ (l : List (ℕ × Bool)) (j : ℕ) (acc : F) (rows : List (Row F)),
      assign_steps e r rlc l j acc = Except.ok rows →
      ∀ row ∈ rows, row.rlc_acc = rlc := by
  intro l
  induction l with
  | nil =>
    intro j acc rows h
    rw [assign_steps] at h
    simp only [Except.ok.injEq] at h
    subst h
    intro row hrow
    simp at hrow
  | cons b rest ih =>
    obtain ⟨bv, bc⟩ := b
    intro j acc rows h
    rw [assign_steps] at h
    obtain ⟨row1, h1, h⟩ := except_bind_ok_iff.mp h
    obtain ⟨row2, h2, h⟩ := except_bind_ok_iff.mp h
    obtain ⟨rows0, h3, h⟩ := except_bind_ok_iff.mp h
    simp only [Except.ok.injEq] at h
    subst h
    obtain ⟨bl1, csa1, addr1, -, -, -, hr1⟩ := assign_step_ok h1
    obtain ⟨bl2, csa2, addr2, -, -, -, hr2⟩ := assign_step_ok h2
    intro row hrow
    simp only [List.mem_cons] at hrow
    rcases hrow with hrow | hrow | hrow
    · subst hrow
      simp [hr1, step_row]
    · subst hrow
      simp [hr2, step_row]
    · exact ih _ _ _ h3 row hrow

/-- In RlcAcc mode, the value on the last (write) row emitted by the per-byte
loop is the left fold `acc := acc * r + byte` over the remaining bytes,
starting from the incoming accumulator. -/
lemma assign_steps_last_value {e : CopyEvent} {r rlc : F}
    (hd : e.dst_type = CopyDataType.RlcAcc) :
    ∀ (l : List (ℕ × Bool)) (j : ℕ) (acc : F) (rows : List (Row F)),
      l ≠ [] → assign_steps e r rlc l j acc = Except.ok rows →
      ∃ last, rows.getLast? = some last ∧
        last.value = List.foldl (fun (a : F) (b : ℕ × Bool) => a * r + (b.1 : F)) acc l := by
  intro l
  induction l with
  | nil => intro j acc rows hne; exact absurd rfl hne
  | cons b rest ih =>
    obtain ⟨bv, bc⟩ := b
    intro j acc rows hne h
    rw [assign_steps] at h
    obtain ⟨row1, h1, h⟩ := except_bind_ok_iff.mp h
    obtain ⟨row2, h2, h⟩ := except_bind_ok_iff.mp h
    obtain ⟨rows0, h3, h⟩ := except_bind_ok_iff.mp h
    simp only [Except.ok.injEq] at h
    subst h
    by_cases hrest : rest = []
    · subst hrest
      rw [assign_steps] at h3
      simp only [Except.ok.injEq] at h3
      subst h3
      refine ⟨row2, rfl, ?_⟩
      obtain ⟨bl2, csa2, addr2, -, -, -, hr2⟩ := assign_step_ok h2
      rw [hr2]
      simp [step_row, hd]
    · obtain ⟨last, hl, hv⟩ := ih (j + 1) _ rows0 hrest h3
      have hne0 : rows0 ≠ [] := by
        intro hnil
        have hlen := assign_steps_length rest (j + 1)
          (if e.dst_type = CopyDataType.RlcAcc then acc * r + (bv : F) else acc) rows0 h3
        rw [hnil] at hlen
        simp at hlen
        exact hrest hlen
      refine ⟨last, ?_, ?_⟩
      · show (([row1, row2] : List (Row F)) ++ rows0).getLast? = some last
        rw [List.getLast?_append_of_ne_nil _ hne0]
        exact hl
      · simpa [List.foldl_cons, hd] using hv

/-- `rlc::value` of a reversed sequence is the left fold `acc := acc * r + b`
over the original sequence. -/
lemma rlc_value_reverse (xs : List ℕ) (r : F) :
    rlc_value xs.reverse r = xs.foldl (fun (a : F) (b : ℕ) => a * r + (b : F)) 0 := by
  simp [rlc_value, List.foldr_reverse]

/-- C2 (amended): for an event with destination RlcAcc and non-empty bytes,
the value assigned on the last (write) row is the LEFT fold
`acc := acc * r + byte` iterated from the FIRST byte to the last (equivalently
`rlc::value` of the reversed byte sequence, `Σ bytes[i] · r^(N-1-i)`), and it
equals the event-level `rlc_acc` assigned on every row of the event; for
events with a different destination, `rlc_acc = 0` on every row. -/
theorem c2_last_write_value_foldl_and_rlc_acc (e : CopyEvent) (r : F)
    (rows : List (Row F)) (h : assign_event_rows e r = Except.ok rows) :
    (∀ row ∈ rows, row.rlc_acc = event_rlc_acc e r) ∧
    (e.dst_type = CopyDataType.RlcAcc → e.bytes ≠ [] →
      ∃ last, rows.getLast? = some last ∧
        last.value = event_rlc_acc e r ∧
        event_rlc_acc e r =
          List.foldl (fun (acc : F) (b : ℕ) => acc * r + (b : F)) 0 (e.bytes.map Prod.fst)) ∧
    (e.dst_type ≠ CopyDataType.RlcAcc → ∀ row ∈ rows, row.rlc_acc = 0) := by
  unfold assign_event_rows at h
  have hrl := assign_steps_rlc_acc e.bytes 0 0 rows h
  refine ⟨hrl, ?_, ?_⟩
  · intro hd hne
    obtain ⟨last, hl, hv⟩ := assign_steps_last_value hd e.bytes 0 0 rows hne h
    have hfold : event_rlc_acc e r =
        List.foldl (fun (acc : F) (b : ℕ) => acc * r + (b : F)) 0 (e.bytes.map Prod.fst) := by
      rw [event_rlc_acc, if_pos hd, rlc_value_reverse]
    refine ⟨last, hl, ?_, hfold⟩
    rw [hv, hfold, List.foldl_map]
  · intro hne row hrow
    rw [hrl row hrow, event_rlc_acc, if_neg hne]

def c2_event : CopyEvent where
  src_type := CopyDataType.Memory
  dst_type := CopyDataType.RlcAcc
  src_id := NumberOrHash.Number 1
  dst_id := NumberOrHash.Number 1
  src_addr := 0
  src_addr_end := 2
  dst_addr := 0
  log_id := none
  bytes := [(1, false), (0, false)]
  rw_counter_sched := [10, 10, 11, 11]
  rwc_inc_left_sched := [2, 2, 1, 1]

/-- C2 counterexample: for the RlcAcc event with bytes `[1, 0]` and `r = 2`,
the code's values down the four rows are `[1, 1, 0, 2]` — the last write row
carries `1·r + 0 = 2`, the left fold — while the claim's
`fold_right(bytes, λb acc. acc·r + b, 0)` evaluates to `0·r + 1 = 1 ≠ 2`. -/
theorem c2_last_write_value_ne_foldr :
    (assign_event_rows c2_event (2 : ZMod 101)).toOption.map (List.map Row.value) =
      some [1, 1, 0, 2] ∧
    List.foldr (fun (b : ℕ) (acc : ZMod 101) => acc * 2 + (b : ZMod 101)) 0
      (c2_event.bytes.map Prod.fst) = 1 ∧
    (2 : ZMod 101) ≠ 1 := by decide

def c2_rows : List (Row (ZMod 101)) :=
  ((assign_event_rows c2_event (2 : ZMod 101)).toOption).getD []

theorem c2_witness : c2_rows.getLast? = some (c2_rows.getLast (by decide)) ∧
    (c2_rows.getLast (by decide)).value = event_rlc_acc c2_event (2 : ZMod 101) := by
  obtain ⟨last, hl, hv, -⟩ :=
    (c2_last_write_value_foldl_and_rlc_acc c2_event (2 : ZMod 101) c2_rows (by decide)).2.1
      (by decide) (by decide)
  have hsame : some (c2_rows.getLast (by decide)) = some last := by
    rw [← hl, List.getLast?_eq_getLast]
  exact ⟨by rw [hl, ← Option.some.inj hsame], by rw [Option.some.inj hsame]; exact hv⟩

lemma except_ok_bind {ε α β : Type} (a : α) (f : α → Except ε β) :
    (Except.ok a).bind f = f a := rfl

/-- For every byte k of the per-byte loop, the rows at positions 2k and 2k+1
are the byte's READ row followed by its WRITE row: the read row has the step
selector on and carries the source tag, source id and the byte value; the
write row has the selector off and carries the destination tag and id, and
(outside RlcAcc mode) the same byte value. -/
lemma assign_steps_pair {e : CopyEvent} {r rlc : F} :
    ∀ (l : List (ℕ × Bool)) (j : ℕ) (acc : F) (rows : List (Row F)),
      assign_steps e r rlc l j acc = Except.ok rows →
      ∀ (k : ℕ) (bv : ℕ) (bc : Bool), l[k]? = some (bv, bc) →
        ∃ row1 row2, rows[2 * k]? = some row1 ∧ rows[2 * k + 1]? = some row2 ∧
          row1.q_step = true ∧ row1.tag = e.src_type ∧
          row1.id = number_or_hash_to_field e.src_id r ∧ row1.value = (bv : F) ∧
          row2.q_step = false ∧ row2.tag = e.dst_type ∧
          row2.id = number_or_hash_to_field e.dst_id r ∧
          (e.dst_type ≠ CopyDataType.RlcAcc → row2.value = (bv : F)) := by
  intro l
  induction l with
  | nil =>
    intro j acc rows h k bv bc hk
    simp at hk
  | cons b rest ih =>
    obtain ⟨bv0, bc0⟩ := b
    intro j acc rows h k bv bc hk
    rw [assign_steps] at h
    obtain ⟨row1, h1, h⟩ := except_bind_ok_iff.mp h
    obtain ⟨row2, h2, h⟩ := except_bind_ok_iff.mp h
    obtain ⟨rows0, h3, h⟩ := except_bind_ok_iff.mp h
    simp only [Except.ok.injEq] at h
    subst h
    cases k with
    | zero =>
      simp only [List.getElem?_cons_zero, Option.some.injEq, Prod.mk.injEq] at hk
      obtain ⟨rfl, rfl⟩ := hk
      obtain ⟨bl1, csa1, addr1, -, -, -, hr1⟩ := assign_step_ok h1
      obtain ⟨bl2, csa2, addr2, -, -, -, hr2⟩ := assign_step_ok h2
      have hm0 : (2 * j) % 2 = 0 := by omega
      have hm1 : (2 * j + 1) % 2 = 1 := by omega
      refine ⟨row1, row2, by simp, by simp, ?_, ?_, ?_, ?_, ?_, ?_, ?_, ?_⟩
      · rw [hr1]; simp [step_row, hm0]
      · rw [hr1]; simp [step_row, hm0]
      · rw [hr1]; simp [step_row, hm0]
      · rw [hr1]; simp [step_row]
      · rw [hr2]; simp [step_row, hm1]
      · rw [hr2]; simp [step_row, hm1]
      · rw [hr2]; simp [step_row, hm1]
      · intro hnd
        rw [hr2]
        simp [step_row, hnd]
    | succ k2 =>
      have hk2 : rest[k2]? = some (bv, bc) := by simpa using hk
      obtain ⟨ra, rb, hia, hib, hp1, hp2, hp3, hp4, hp5, hp6, hp7, hp8⟩ :=
        ih (j + 1) _ rows0 h3 k2 bv bc hk2
      refine ⟨ra, rb, ?_, ?_, hp1, hp2, hp3, hp4, hp5, hp6, hp7, hp8⟩
      · have harith : 2 * (k2 + 1) = 2 * k2 + 1 + 1 := by omega
        rw [harith]
        simpa using hia
      · have harith : 2 * (k2 + 1) + 1 = 2 * k2 + 1 + 1 + 1 := by omega
        rw [harith]
        simpa using hib

/-- The rows of a successful `assign_events` split, in event order, into the
per-event outputs of `assign_event_rows`. -/
lemma assign_events_shape {r : F} :
    ∀ (evs : List CopyEvent) (body : List (Row F)),
      assign_events r evs = Except.ok body →
      ∃ bodies : List (List (Row F)), body = bodies.flatten ∧
        List.Forall₂ (fun (b : List (Row F)) (e : CopyEvent) =>
          assign_event_rows e r = Except.ok b) bodies evs := by
  intro evs
  induction evs with
  | nil =>
    intro body h
    rw [assign_events] at h
    simp only [Except.ok.injEq] at h
    subst h
    exact ⟨[], rfl, List.Forall₂.nil⟩
  | cons e es ih =>
    intro body h
    rw [assign_events] at h
    obtain ⟨rows, h1, h⟩ := except_bind_ok_iff.mp h
    obtain ⟨rest, h2, h⟩ := except_bind_ok_iff.mp h
    simp only [Except.ok.injEq] at h
    subst h
    obtain ⟨bodies, hb, hfa⟩ := ih rest h2
    subst hb
    exact ⟨rows :: bodies, rfl, List.Forall₂.cons h1 hfa⟩

/-- Total body length of a successful `assign_events`. -/
lemma assign_events_length {r : F} :
    ∀ (evs : List CopyEvent) (body : List (Row F)),
      assign_events r evs = Except.ok body →
      body.length = (evs.map fun e => 2 * e.bytes.length).sum := by
  intro evs
  induction evs with
  | nil =>
    intro body h
    rw [assign_events] at h
    simp only [Except.ok.injEq] at h
    subst h
    rfl
  | cons e es ih =>
    intro body h
    rw [assign_events] at h
    obtain ⟨rows, h1, h⟩ := except_bind_ok_iff.mp h
    obtain ⟨rest, h2, h⟩ := except_bind_ok_iff.mp h
    simp only [Except.ok.injEq] at h
    subst h
    have hlen : rows.length = 2 * e.bytes.length := by
      unfold assign_event_rows at h1
      exact assign_steps_length e.bytes 0 0 rows h1
    simp [List.length_append, hlen, ih rest h2]

/-- C7: a successful `assign_block` emits, in event order, for each CopyEvent
exactly its own 2·N rows — `bodies` is positionally matched to `evs`, body i
being event i's `assign_event_rows` output of length 2·Nᵢ, with the byte-k
READ row (selector on, source tag/id, the byte value) at position 2k and its
WRITE row (selector off, destination tag/id) at position 2k+1 — followed by
exactly two trailing padding rows whose every column is zero (including
q_enable) with the default tag; the total row count is Σ 2·Nᵢ + 2. -/
theorem c7_assign_block_shape (evs : List CopyEvent) (r : F) (rows : List (Row F))
    (h : assign_block evs r = Except.ok rows) :
    ∃ bodies : List (List (Row F)),
      rows = bodies.flatten ++ [assign_padding_row, assign_padding_row] ∧
      List.Forall₂ (fun (b : List (Row F)) (e : CopyEvent) =>
        assign_event_rows e r = Except.ok b ∧
        b.length = 2 * e.bytes.length ∧
        ∀ (k : ℕ) (bv : ℕ) (bc : Bool), e.bytes[k]? = some (bv, bc) →
          ∃ row1 row2, b[2 * k]? = some row1 ∧ b[2 * k + 1]? = some row2 ∧
            row1.q_step = true ∧ row1.tag = e.src_type ∧
            row1.id = number_or_hash_to_field e.src_id r ∧ row1.value = (bv : F) ∧
            row2.q_step = false ∧ row2.tag = e.dst_type ∧
            row2.id = number_or_hash_to_field e.dst_id r ∧
            (e.dst_type ≠ CopyDataType.RlcAcc → row2.value = (bv : F)))
        bodies evs ∧
      rows.length = (evs.map fun e => 2 * e.bytes.length).sum + 2 ∧
      all_zero_row (assign_padding_row : Row F) := by
  unfold assign_block at h
  obtain ⟨body, h1, h⟩ := except_bind_ok_iff.mp h
  simp only [Except.ok.injEq] at h
  subst h
  obtain ⟨bodies, hb, hfa⟩ := assign_events_shape evs body h1
  subst hb
  refine ⟨bodies, rfl, ?_, ?_, ?_⟩
  · refine List.Forall₂.imp ?_ hfa
    intro b e hbe
    have h2 := hbe
    unfold assign_event_rows at h2
    exact ⟨hbe, assign_steps_length e.bytes 0 0 b h2,
      fun k bv bc hk => assign_steps_pair e.bytes 0 0 b h2 k bv bc hk⟩
  · rw [List.length_append]
    rw [assign_events_length evs _ h1]
    rfl
  · simp [all_zero_row, assign_padding_row]

def c7_event : CopyEvent where
  src_type := CopyDataType.Memory
  dst_type := CopyDataType.Memory
  src_id := NumberOrHash.Number 1
  dst_id := NumberOrHash.Number 1
  src_addr := 0
  src_addr_end := 1
  dst_addr := 0
  log_id := none
  bytes := [(9, false)]
  rw_counter_sched := [10, 11]
  rwc_inc_left_sched := [2, 1]

def c7_rows : List (Row (ZMod 101)) :=
  ((assign_block [c7_event] (3 : ZMod 101)).toOption).getD []

theorem c7_witness :
    c7_rows.length = (([c7_event].map fun e => 2 * e.bytes.length).sum + 2) := by
  obtain ⟨bodies, -, -, hlen, -⟩ :=
    c7_assign_block_shape [c7_event] (3 : ZMod 101) c7_rows (by decide)
  exact hlen

/-- A read row of a TxLog-destination event with a missing log id fails: the
source hits either the bytes_left `unwrap` or the `log_id.unwrap()` panic. -/
lemma assign_step_read_txlog_none {e : CopyEvent} {r : F}
    (hd : e.dst_type = CopyDataType.TxLog) (hl : e.log_id = none)
    {i : ℕ} (hi : i % 2 = 0) (cs : CopyStep) (v rl : F) :
    assign_step e r i cs v rl = Except.error AssignmentError.assignmentError := by
  unfold assign_step
  cases hbl : bytes_left_checked e.bytes.length i with
  | none => rfl
  | some bl =>
    have hsa : step_addr e i = some (e.src_addr + i / 2) := by
      simp [step_addr, hi]
    have hta : (tx_log_addr e i (e.src_addr + i / 2) : Option F) = none := by
      simp [tx_log_addr, hi, hd, hl]
    simp only [hsa, hta]

lemma assign_event_rows_txlog_none {e : CopyEvent} {r : F}
    (hd : e.dst_type = CopyDataType.TxLog) (hl : e.log_id = none) (hne : e.bytes ≠ []) :
    assign_event_rows e r = Except.error AssignmentError.assignmentError := by
  obtain ⟨b, rest, heq⟩ := List.exists_cons_of_ne_nil hne
  obtain ⟨bv, bc⟩ := b
  unfold assign_event_rows
  rw [heq, assign_steps,
    assign_step_read_txlog_none hd hl (show (2 * 0) % 2 = 0 by simp),
    except_error_bind]

lemma assign_events_error_of_mem {r : F} :
    ∀ (evs : List CopyEvent) (e : CopyEvent), e ∈ evs →
      e.dst_type = CopyDataType.TxLog → e.log_id = none → e.bytes ≠ [] →
      assign_events r evs = Except.error AssignmentError.assignmentError := by
  intro evs
  induction evs with
  | nil =>
    intro e he
    simp at he
  | cons a as ih =>
    intro e he hd hl hne
    rw [assign_events]
    rcases List.mem_cons.mp he with rfl | he2
    · rw [assign_event_rows_txlog_none hd hl hne, except_error_bind]
    · cases h1 : assign_event_rows a r with
      | error err =>
        rw [except_error_bind]
      | ok rows =>
        rw [except_ok_bind, ih e he2 hd hl hne, except_error_bind]

/-- C8 (amended): every block containing a TxLog-destination event whose
log_id is absent and whose byte list is non-empty makes `assign_block` fail
with the single opaque assignment error.  (The non-emptiness hypothesis is
forced by the counterexample: a zero-byte event emits no step, so the
`log_id.unwrap()` is never reached.) -/
theorem c8_txlog_missing_log_id_fails (evs : List CopyEvent) (r : F) (e : CopyEvent)
    (he : e ∈ evs) (hd : e.dst_type = CopyDataType.TxLog) (hl : e.log_id = none)
    (hne : e.bytes ≠ []) :
    assign_block evs r = Except.error AssignmentError.assignmentError := by
  unfold assign_block
  rw [assign_events_error_of_mem evs e he hd hl hne, except_error_bind]

def c8_empty_event : CopyEvent where
  src_type := CopyDataType.Memory
  dst_type := CopyDataType.TxLog
  src_id := NumberOrHash.Number 1
  dst_id := NumberOrHash.Number 1
  src_addr := 0
  src_addr_end := 0
  dst_addr := 0
  log_id := none
  bytes := []
  rw_counter_sched := []
  rwc_inc_left_sched := []

/-- C8 counterexample: a block containing a TxLog-destination CopyEvent with
`log_id = None` but an empty byte list is assigned WITHOUT error — the event
emits no step, so assignment succeeds and yields only the two padding rows,
contradicting the claim for this event. -/
theorem c8_empty_txlog_missing_log_id_ok :
    c8_empty_event.dst_type = CopyDataType.TxLog ∧ c8_empty_event.log_id = none ∧
    assign_block [c8_empty_event] (2 : ZMod 101) =
      Except.ok [assign_padding_row, assign_padding_row] := by
  refine ⟨rfl, rfl, ?_⟩
  rfl

def c8_event : CopyEvent where
  src_type := CopyDataType.Memory
  dst_type := CopyDataType.TxLog
  src_id := NumberOrHash.Number 1
  dst_id := NumberOrHash.Number 1
  src_addr := 0
  src_addr_end := 1
  dst_addr := 0
  log_id := none
  bytes := [(7, false)]
  rw_counter_sched := [10, 11]
  rwc_inc_left_sched := [2, 1]

theorem c8_witness :
    assign_block [c8_event] (2 : ZMod 101) = Except.error AssignmentError.assignmentError :=
  c8_txlog_missing_log_id_fails [c8_event] 2 c8_event (by decide) (by decide) (by decide)
    (by decide)

/-- The is_code column down the rows of the per-byte loop: the read row of
byte k carries the byte's flag exactly when the source side is Bytecode, the
write row exactly when the destination side is Bytecode, and 0 otherwise. -/
lemma assign_steps_is_code {e : CopyEvent} {r rlc : F} :
    ∀ (l : List (ℕ × Bool)) (j : ℕ) (acc : F) (rows : List (Row F)),
      assign_steps e r rlc l j acc = Except.ok rows →
      ∀ (k : ℕ) (bv : ℕ) (bc : Bool), l[k]? = some (bv, bc) →
        (rows[2 * k]?).map Row.is_code =
          some (if e.src_type = CopyDataType.Bytecode then (if bc then 1 else 0) else 0) ∧
        (rows[2 * k + 1]?).map Row.is_code =
          some (if e.dst_type = CopyDataType.Bytecode then (if bc then 1 else 0) else 0) := by
  intro l
  induction l with
  | nil =>
    intro j acc rows h k bv bc hk
    simp at hk
  | cons b rest ih =>
    obtain ⟨bv0, bc0⟩ := b
    intro j acc rows h k bv bc hk
    rw [assign_steps] at h
    obtain ⟨row1, h1, h⟩ := except_bind_ok_iff.mp h
    obtain ⟨row2, h2, h⟩ := except_bind_ok_iff.mp h
    obtain ⟨rows0, h3, h⟩ := except_bind_ok_iff.mp h
    simp only [Except.ok.injEq] at h
    subst h
    cases k with
    | zero =>
      simp only [List.getElem?_cons_zero, Option.some.injEq, Prod.mk.injEq] at hk
      obtain ⟨rfl, rfl⟩ := hk
      obtain ⟨bl1, csa1, addr1, -, -, -, hr1⟩ := assign_step_ok h1
      obtain ⟨bl2, csa2, addr2, -, -, -, hr2⟩ := assign_step_ok h2
      constructor
      · rw [hr1]
        by_cases hs : e.src_type = CopyDataType.Bytecode <;>
          simp [step_row, hs]
      · rw [hr2]
        by_cases hs : e.dst_type = CopyDataType.Bytecode <;>
          simp [step_row, hs]
    | succ k2 =>
      have hk2 : rest[k2]? = some (bv, bc) := by simpa using hk
      have hih := ih (j + 1) _ rows0 h3 k2 bv bc hk2
      constructor
      · have harith : 2 * (k2 + 1) = 2 * k2 + 1 + 1 := by omega
        rw [harith]
        simpa using hih.1
      · have harith : 2 * (k2 + 1) + 1 = 2 * k2 + 1 + 1 + 1 := by omega
        rw [harith]
        simpa using hih.2

/-- C9: on every emitted step row the is_code column carries the event byte's
flag (as 0 or 1) exactly when the row's own side is Bytecode — `src_type` for
the read row of byte k, `dst_type` for its write row — and 0 otherwise. -/
theorem c9_is_code_assignment (e : CopyEvent) (r : F) (rows : List (Row F))
    (h : assign_event_rows e r = Except.ok rows) (k : ℕ) (bv : ℕ) (bc : Bool)
    (hk : e.bytes[k]? = some (bv, bc)) :
    (rows[2 * k]?).map Row.is_code =
      some (if e.src_type = CopyDataType.Bytecode then (if bc then (1 : F) else 0) else 0) ∧
    (rows[2 * k + 1]?).map Row.is_code =
      some (if e.dst_type = CopyDataType.Bytecode then (if bc then (1 : F) else 0) else 0) := by
  unfold assign_event_rows at h
  exact assign_steps_is_code e.bytes 0 0 rows h k bv bc hk

def c9_event : CopyEvent where
  src_type := CopyDataType.Bytecode
  dst_type := CopyDataType.Memory
  src_id := NumberOrHash.Number 1
  dst_id := NumberOrHash.Number 1
  src_addr := 0
  src_addr_end := 1
  dst_addr := 0
  log_id := none
  bytes := [(7, true)]
  rw_counter_sched := [10, 10]
  rwc_inc_left_sched := [1, 1]

def c9_rows : List (Row (ZMod 101)) :=
  ((assign_event_rows c9_event (3 : ZMod 101)).toOption).getD []

theorem c9_witness :
    (c9_rows[0]?).map Row.is_code = some (1 : ZMod 101) ∧
    (c9_rows[1]?).map Row.is_code = some (0 : ZMod 101) :=
  c9_is_code_assignment c9_event 3 c9_rows (by decide) 0 7 true (by decide)

/-- C10: for every event with 1 ≤ N < 2^64 bytes and every in-range step index
i < 2N, the bytes_left subtraction `N - i/2` does not underflow (it is at
least 1) and its u64 conversion succeeds, and on write rows the step index is
odd hence at least 1, so the `(i - 1)/2` address offset does not underflow:
none of the checked arithmetic of `assign_step` can fail. -/
theorem c10_assign_step_arithmetic_total (n i : ℕ) (h1 : 1 ≤ n) (h64 : n < 2 ^ 64)
    (hi : i < 2 * n) :
    bytes_left_checked n i = some (n - i / 2) ∧ 1 ≤ n - i / 2 ∧
    (i % 2 = 1 → 1 ≤ i ∧ ∀ e : CopyEvent, step_addr e i = some (e.dst_addr + (i - 1) / 2)) := by
  have hdiv : i / 2 < n := by omega
  have hsub : n - i / 2 < 2 ^ 64 := lt_of_le_of_lt (Nat.sub_le n (i / 2)) h64
  refine ⟨?_, by omega, ?_⟩
  · unfold bytes_left_checked
    rw [if_neg (by omega), if_neg (by omega)]
  · intro hodd
    refine ⟨by omega, fun e => ?_⟩
    unfold step_addr
    rw [if_neg (by omega), if_neg (by omega)]

theorem c10_witness : bytes_left_checked 1 1 = some 1 ∧ 1 ≤ 1 - 1 / 2 :=
  ⟨(c10_assign_step_arithmetic_total 1 1 (by decide) (by decide) (by decide)).1,
    (c10_assign_step_arithmetic_total 1 1 (by decide) (by decide) (by decide)).2.1⟩

def c1_event : CopyEvent where
  src_type := CopyDataType.Memory
  dst_type := CopyDataType.TxLog
  src_id := NumberOrHash.Number 1
  dst_id := NumberOrHash.Number 1
  src_addr := 0
  src_addr_end := 1
  dst_addr := 0
  log_id := some 1
  bytes := [(5, false)]
  rw_counter_sched := [10, 11]
  rwc_inc_left_sched := [2, 1]

/-- C1: evaluation of the assignment engine on a Memory→TxLog event with
src_addr = dst_addr = 0, one byte and log_id = 1.  The READ row (index 0)
receives the packed TxLog address `0 | Data << 32 | 1 << 48` — not the plain
source address 0 the claim requires — while the WRITE row (index 1) receives
the plain destination address 0 instead of the packed one: the code applies
the packing to read rows, the claim (with the spec and the in-file TxLog
lookup comment) puts it on the write rows only. -/
theorem c1_txlog_packing_on_read_row :
    (assign_event_rows c1_event (7 : ZMod 101)).toOption.map (List.map Row.addr) =
      some [((tx_log_field_tag_data * 2 ^ 32 + 1 * 2 ^ 48 : ℕ) : ZMod 101), 0] ∧
    ((tx_log_field_tag_data * 2 ^ 32 + 1 * 2 ^ 48 : ℕ) : ZMod 101) ≠
      ((c1_event.src_addr : ℕ) : ZMod 101) := by decide
